import Mathlib

/-!
# Verification of pino-file-logger-transport

Shallow embedding of the rotation / archival / retention core of the
`pino-file-logger-transport` package, together with proofs of the
specification's testable properties.

Conventions of the embedding:
* JavaScript strings are Lean `String`s; the JS `String.prototype.startsWith`
  and `endsWith` methods are embedded as list-based functions on `String.data`
  so that proofs can proceed by list induction.
* The file system is an association list from directory name to the list of
  file names it contains (`FS` below); `readdirSync`, `unlinkSync`,
  `createWriteStream` and `existsSync` become pure operations on that list.
* JS `number` values that may be `NaN`/`Infinity` (the `retentionDays`
  option) are embedded as the inductive `JsNumber` with an explicit rational
  payload in the finite case.
* Calendar dates are handled at day granularity: a date is its civil triple
  `(year, month, day)`, converted to an epoch-day index (`toEpochDay`) for
  comparisons.  A `Date` value that JS would consider invalid (e.g. parsed
  from `"2025-02-30"`) is `none`, and compares as false, exactly as `NaN`
  comparisons do in JS.
* Asynchronous failure of the archiver pipeline is an explicit
  `ArchiveOutcome` oracle describing which (if any) of the `error` /
  `warning` events fired for a given file's archival.
-/

namespace PinoTransport

/-- Configuration log levels (src/types.ts `LogLevel`). -/
inductive LogLevel where
  | fatal
  | error
  | warn
  | info
  | debug
  | trace
  | silent
deriving DecidableEq, Repr

/-- `getLevelValue` from src/utils/log-level.ts: numeric value of a level,
higher means more verbose. -/
def getLevelValue : LogLevel → Nat
  | .silent => 0
  | .fatal => 1
  | .error => 2
  | .warn => 3
  | .info => 4
  | .debug => 5
  | .trace => 6

/-- A Pino log entry as consumed by the transport (`PinoLogEntry`).  Only the
`level` field matters to the filter; `msg` stands in for the payload.  The
`level` field may be absent in the JS object, hence `Option`. -/
structure PinoLogEntry where
  level : Option Int
  msg : String
deriving DecidableEq, Repr

/-- `shouldWriteLog` from src/utils/log-level.ts.  The numeric `level` field
is defaulted to 30 (Pino's `info`) when absent or falsy (`0`), converted to a
string level by the six-case switch (defaulting to `info`), and compared with
the configured level via `getLevelValue`. -/
def shouldWriteLog (obj : PinoLogEntry) (configuredLevel : LogLevel) : Bool :=
  if configuredLevel = .silent then
    false
  else
    let logLevel : Int :=
      match obj.level with
      | none => 30
      | some v => if v = 0 then 30 else v
    let logLevelStr : LogLevel :=
      if logLevel = 10 then .trace
      else if logLevel = 20 then .debug
      else if logLevel = 30 then .info
      else if logLevel = 40 then .warn
      else if logLevel = 50 then .error
      else if logLevel = 60 then .fatal
      else .info
    decide (getLevelValue logLevelStr ≤ getLevelValue configuredLevel)

/-- Spec-side type: the six record severities, ordered from least to most
urgent (`fatal > error > warn > info > debug > trace`). -/
inductive Severity where
  | trace
  | debug
  | info
  | warn
  | error
  | fatal
deriving DecidableEq, Repr

/-- The Pino numeric wire code of a severity (10, 20, 30, 40, 50, 60). -/
def Severity.pinoCode : Severity → Int
  | .trace => 10
  | .debug => 20
  | .info => 30
  | .warn => 40
  | .error => 50
  | .fatal => 60

/-- Spec-side urgency rank of a severity: larger is more urgent
(`fatal > error > warn > info > debug > trace`). -/
def Severity.urgency : Severity → Nat
  | .trace => 0
  | .debug => 1
  | .info => 2
  | .warn => 3
  | .error => 4
  | .fatal => 5

/-- Spec-side urgency threshold of a configured minimum level.  `silent` is
given a rank above every record severity; it is only ever used behind the
`≠ silent` guard, where the exact value is irrelevant. -/
def minLevelUrgency : LogLevel → Nat
  | .trace => 0
  | .debug => 1
  | .info => 2
  | .warn => 3
  | .error => 4
  | .fatal => 5
  | .silent => 6

/-- The record `level` field is not one of the six recognized Pino codes
(this includes an absent field and the falsy value `0`). -/
def unrecognizedLevel : Option Int → Prop
  | none => True
  | some v => v ≠ 10 ∧ v ≠ 20 ∧ v ≠ 30 ∧ v ≠ 40 ∧ v ≠ 50 ∧ v ≠ 60

instance : DecidablePred unrecognizedLevel := by
  intro o
  cases o <;> simp [unrecognizedLevel] <;> infer_instance

/-! ## Strings: JS `startsWith` / `endsWith` -/

/-- `hasLead cs ps`: the character list `cs` begins with the pattern `ps`.
Used to embed JS `String.prototype.startsWith` (and, on reversed lists,
`endsWith`). -/
def hasLead : List Char → List Char → Bool
  | _, [] => true
  | [], _ :: _ => false
  | c :: cs, p :: ps => c = p && hasLead cs ps

/-- JS `s.startsWith(pat)`. -/
def jsStartsWith (s pat : String) : Bool :=
  hasLead s.data pat.data

/-- JS `s.endsWith(pat)`. -/
def jsEndsWith (s pat : String) : Bool :=
  hasLead s.data.reverse pat.data.reverse

/-! ## Dates

The embedding works at day granularity.  A civil date is a
(year, month, day) triple; `toEpochDay` is the standard days-from-civil
conversion (trunc-division variant; its divisions only ever see nonnegative
operands by construction of `era`/`yoe`).  A JS `Date` value is an
`Option Int`: `some e` is the epoch-day index of a valid date, `none` is an
Invalid Date (`NaN` time value), which compares `<` as false. -/

/-- Civil (local calendar) date triple. -/
structure CivilDate where
  year : Int
  month : Int
  day : Int
deriving DecidableEq, Repr

/-- Days-from-civil: epoch-day index of a (valid) civil date. -/
def toEpochDay (year month day : Int) : Int :=
  let y := if month ≤ 2 then year - 1 else year
  let era := (if 0 ≤ y then y else y - 399) / 400
  let yoe := y - era * 400
  let mp := (month + 9) % 12
  let doy := (153 * mp + 2) / 5 + day - 1
  let doe := yoe * 365 + yoe / 4 - yoe / 100 + doy
  era * 146097 + doe - 719468

/-- Gregorian leap-year test. -/
def isLeapYear (y : Int) : Bool :=
  (decide (y % 4 = 0) && decide (y % 100 ≠ 0)) || decide (y % 400 = 0)

/-- Number of days in a month. -/
def daysInMonth (y m : Int) : Int :=
  if m = 2 then (if isLeapYear y then 29 else 28)
  else if m = 4 ∨ m = 6 ∨ m = 9 ∨ m = 11 then 30
  else 31

/-- A JS `Date` value at day granularity: `none` is an Invalid Date. -/
def JsDate := Option Int
deriving DecidableEq, Repr

/-- `new Date("YYYY-MM-DD")`: valid ISO calendar dates yield their epoch
day, out-of-range month/day yields an Invalid Date. -/
def jsDateFromTriple (y m d : Int) : JsDate :=
  if 1 ≤ m ∧ m ≤ 12 ∧ 1 ≤ d ∧ d ≤ daysInMonth y m then
    some (toEpochDay y m d)
  else
    (none : Option Int)

/-- JS `fileDate < cutoffDate` for a (valid) cutoff: false when `fileDate`
is an Invalid Date, chronological comparison otherwise. -/
def jsDateLtEpoch : JsDate → Int → Bool
  | none, _ => false
  | some e, c => decide (e < c)

/-! ## JS numbers (`retentionDays`) -/

/-- A JS `number` as needed by `retentionDays`: `NaN`, the infinities, or a
finite (rational) value. -/
inductive JsNumber where
  | nan
  | posInf
  | negInf
  | num (q : ℚ)
deriving DecidableEq

/-- `Number.isFinite`. -/
def JsNumber.isFinite : JsNumber → Bool
  | .num _ => true
  | _ => false

/-- JS `x < 0` (false for `NaN`). -/
def JsNumber.ltZero : JsNumber → Bool
  | .num q => decide (q < 0)
  | .negInf => true
  | _ => false

/-- JS `ToIntegerOrInfinity` on a finite value: truncation toward zero
(this is what `Date.prototype.setDate` applies to its argument). -/
def jsTrunc (q : ℚ) : Int :=
  if 0 ≤ q then ⌊q⌋ else ⌈q⌉

/-- `calculateCutoffDate` from src/utils/file-cleanup.ts:
`cutoff.setDate(cutoff.getDate() - retentionDays)` starting from `now`,
i.e. the epoch day of the first of the current month plus the truncated
`dayOfMonth - retentionDays`, minus one. -/
def calculateCutoffDate (now : CivilDate) (retentionDays : ℚ) : Int :=
  toEpochDay now.year now.month 1 + jsTrunc ((now.day : ℚ) - retentionDays) - 1

/-! ## Filename pattern matching -/

/-- Decimal digit test. -/
def isDigitChar (c : Char) : Bool :=
  decide ('0' ≤ c) && decide (c ≤ '9')

/-- Numeric value of a digit character. -/
def digitVal (c : Char) : Int :=
  (c.toNat : Int) - ('0'.toNat : Int)

/-- Helper for `extractDateFromFilename`: match the reversed stem (after the
extension was removed) against the reversed pattern `-YYYY-MM-DD`, i.e.
`DD-MM-YYYY-` from the front of the reversed list. -/
def parseRevDate : List Char → Option JsDate
  | dOnes :: dTens :: h1 :: mOnes :: mTens :: h2 :: yD :: yC :: yB :: yA :: h3 :: _ =>
    if h1 = '-' ∧ h2 = '-' ∧ h3 = '-' ∧
        isDigitChar dOnes ∧ isDigitChar dTens ∧ isDigitChar mOnes ∧
        isDigitChar mTens ∧ isDigitChar yD ∧ isDigitChar yC ∧
        isDigitChar yB ∧ isDigitChar yA then
      some (jsDateFromTriple
        (1000 * digitVal yA + 100 * digitVal yB + 10 * digitVal yC + digitVal yD)
        (10 * digitVal mTens + digitVal mOnes)
        (10 * digitVal dTens + digitVal dOnes))
    else
      none
  | _ => none

/-- `extractDateFromFilename` from src/utils/file-cleanup.ts: the regex
matching a trailing `-YYYY-MM-DD.` followed by one of the extensions `log`,
`zip`, `tar.gz`, `tar`, anchored at the end of the name.  Returns `none`
when the name does not match the pattern; `some jd` when it matches, where
`jd` is the `new Date(...)` value of the captured date string. -/
def extractDateFromFilename (filename : String) : Option JsDate :=
  let extLen : Option Nat :=
    if jsEndsWith filename ".log" || jsEndsWith filename ".zip" then some 4
    else if jsEndsWith filename ".tar.gz" then some 7
    else if jsEndsWith filename ".tar" then some 4
    else none
  match extLen with
  | none => none
  | some k => parseRevDate (filename.data.reverse.drop k)

/-- The per-file predicate of `filterRelevantFiles` from
src/utils/file-cleanup.ts. -/
def isRelevantFile (file filename : String) : Bool :=
  jsStartsWith file filename &&
    (jsEndsWith file ".log" || jsEndsWith file ".zip" ||
      jsEndsWith file ".tar.gz" || jsEndsWith file ".tar")

/-- `filterRelevantFiles` from src/utils/file-cleanup.ts. -/
def filterRelevantFiles (files : List String) (filename : String) : List String :=
  files.filter (fun file => isRelevantFile file filename)

/-! ## The file system -/

/-- The file system: an association list from directory name to the list of
files the directory contains. -/
abbrev FS := List (String × List String)

/-- `existsSync` on a directory. -/
def dirExists (fs : FS) (dir : String) : Bool :=
  fs.any (fun e => e.1 = dir)

/-- `readdirSync`. -/
def readdirFS (fs : FS) (dir : String) : List String :=
  match fs.find? (fun e => e.1 = dir) with
  | some e => e.2
  | none => []

/-- `mkdirSync` via `ensureLogDirectoryExists` from src/utils/file-system.ts:
create the directory if absent, never throw. -/
def ensureLogDirectoryExists (fs : FS) (dir : String) : FS :=
  if dirExists fs dir then fs else fs ++ [(dir, [])]

/-- `createWriteStream`: make sure the named file exists in the directory
(append mode creates it; an archive output stream truncates it). -/
def createFile (fs : FS) (dir file : String) : FS :=
  fs.map (fun e =>
    if e.1 = dir then (e.1, if file ∈ e.2 then e.2 else e.2 ++ [file])
    else e)

/-- `unlinkSync` (guarded by `existsSync` in `deleteFileIfExists`). -/
def removeFile (fs : FS) (dir file : String) : FS :=
  fs.map (fun e =>
    if e.1 = dir then (e.1, e.2.filter (fun f => f ≠ file)) else e)

/-- Does `file` exist in `dir`? -/
def memFile (fs : FS) (dir file : String) : Bool :=
  fs.any (fun e => e.1 = dir && decide (file ∈ e.2))

/-! ## Cleanup (src/utils/file-cleanup.ts, final version with the
`retentionDays` guard of v1.4.4) -/

/-- The deletion test applied to each relevant file by
`processDirectoryFiles`: its name carries an extractable date and that date
is strictly before the cutoff. -/
def shouldDeleteFile (file filename : String) (cutoffDate : Int) : Bool :=
  isRelevantFile file filename &&
    (match extractDateFromFilename file with
     | none => false
     | some fileDate => jsDateLtEpoch fileDate cutoffDate)

/-- The effect of one `processDirectoryFiles` call on a single directory
entry of the file system: the targeted directory loses the files that
`shouldDeleteFile` selects, every other directory is untouched. -/
def procEntry (directory filename : String) (cutoffDate : Int) :
    String × List String → String × List String
  | (dirName, files) =>
    if dirName = directory then
      (dirName,
        files.filter (fun file => !shouldDeleteFile file filename cutoffDate))
    else (dirName, files)

/-- `processDirectoryFiles` from src/utils/file-cleanup.ts: list the
directory, keep only files matching the naming pattern, and delete those
whose extracted date is before the cutoff.  A missing directory makes
`readdirSync` throw, which is caught: the file system is unchanged. -/
def processDirectoryFiles (fs : FS) (directory filename : String)
    (cutoffDate : Int) : FS :=
  fs.map (procEntry directory filename cutoffDate)

/-- The body of `cleanupOldFiles` once the guard has passed and the cutoff
has been computed: process the log directory, then (when the
`archiveDirectory` option is truthy, differs from the log directory, and
exists) the archive directory. -/
def cleanupPass (fs : FS) (logDirectory filename : String) (cutoffDate : Int)
    (archiveDirectory : Option String) : FS :=
  let fs1 := processDirectoryFiles fs logDirectory filename cutoffDate
  match archiveDirectory with
  | none => fs1
  | some ad =>
    if ad ≠ "" ∧ ad ≠ logDirectory then
      if dirExists fs1 ad then processDirectoryFiles fs1 ad filename cutoffDate
      else fs1
    else fs1

/-- `cleanupOldFiles` from src/utils/file-cleanup.ts (final version): the
`!Number.isFinite(retentionDays) || retentionDays < 0` guard skips the whole
pass; otherwise the cutoff is computed from the current date and both
directories are processed. -/
def cleanupOldFiles (fs : FS) (logDirectory filename : String)
    (retentionDays : JsNumber) (archiveDirectory : Option String)
    (now : CivilDate) : FS :=
  if !retentionDays.isFinite || retentionDays.ltZero then fs
  else
    match retentionDays with
    | .num q => cleanupPass fs logDirectory filename
        (calculateCutoffDate now q) archiveDirectory
    | _ => fs

/-! ## Archiving (src/utils/archiver.ts, final version of v1.4.4: the
container output is awaited, archiver errors and non-ENOENT warnings abort
the single file's archival, and `archiveFormat = 'none'` skips archiving
and keeps the file) -/

/-- Archive formats (src/types.ts `ArchiveFormat`). -/
inductive ArchiveFormat where
  | zip
  | gzip
  | tar
  | none
deriving DecidableEq, Repr

/-- `getArchiveExtension` from src/utils/archiver.ts. -/
def getArchiveExtension : ArchiveFormat → String
  | .zip => ".zip"
  | .gzip => ".tar.gz"
  | .tar => ".tar"
  | .none => ""

/-- Which of the archiver pipeline's failure events (if any) fired while a
single file was archived.  `ok` means `archive.finalize()` resolved and the
output stream emitted `close`/`finish`; `warnEnoent` is an ENOENT warning,
which is logged and tolerated (the pipeline still completes). -/
inductive ArchiveOutcome where
  | ok
  | archiveErr
  | outputErr
  | warnNonEnoent
  | warnEnoent
deriving DecidableEq, Repr

/-- The archive container was confirmed fully written and closed: the
`Promise.race` of the error promise against `finalize(); outputFinished`
resolved rather than rejected. -/
def containerConfirmed : ArchiveOutcome → Bool
  | .ok => true
  | .warnEnoent => true
  | _ => false

/-- JS `logFile.replace(/.log$/, ext)` (dot escaped, anchored): replace a
trailing `.log` by `ext`, leave other names alone. -/
def replaceLogSuffix (file ext : String) : String :=
  if jsEndsWith file ".log" then
    ⟨file.data.take (file.data.length - 4) ++ ext.data⟩
  else file

/-- `archiveSingleLogFile` from src/utils/archiver.ts (final version).
With format `none` the file is skipped and kept.  Otherwise the archive
container is created (`createWriteStream(archivePath)`), and the source log
file is unlinked only when the pipeline confirmed the container was fully
written (`containerConfirmed`); any error is caught and leaves the file
system as it stands (the partial container file remains). -/
def archiveSingleLogFile (fs : FS) (logDirectory logFile : String)
    (archiveFormat : ArchiveFormat) (archiveDirectory : Option String)
    (outcome : ArchiveOutcome) : FS :=
  if archiveFormat = ArchiveFormat.none then fs
  else
    let targetArchiveDirectory :=
      match archiveDirectory with
      | Option.none => logDirectory
      | Option.some ad => if ad = "" then logDirectory else ad
    let archiveName := replaceLogSuffix logFile (getArchiveExtension archiveFormat)
    let fs1 := ensureLogDirectoryExists fs targetArchiveDirectory
    let fs2 := createFile fs1 targetArchiveDirectory archiveName
    if containerConfirmed outcome then removeFile fs2 logDirectory logFile
    else fs2

/-- `archiveLogFiles` from src/utils/archiver.ts: enumerate the log
directory once, keep files that start with the base filename, end in
`.log`, and are not the current date's file, and archive each in turn.  The
`outcome` oracle says how the pipeline behaved for each file. -/
def archiveLogFiles (fs : FS) (logDirectory filename currentDate : String)
    (archiveFormat : ArchiveFormat) (archiveDirectory : Option String)
    (outcome : String → ArchiveOutcome) : FS :=
  if !dirExists fs logDirectory then fs
  else
    let files := readdirFS fs logDirectory
    let logFiles := files.filter (fun file =>
      jsStartsWith file filename && jsEndsWith file ".log" &&
        file != filename ++ "-" ++ currentDate ++ ".log")
    logFiles.foldl
      (fun acc logFile =>
        archiveSingleLogFile acc logDirectory logFile archiveFormat
          archiveDirectory (outcome logFile))
      fs

/-! ## Streams and rotation (src/utils/file-system.ts, src/utils/rotation.ts) -/

/-- A writable destination: the real file stream, or the console fallback
substituted when stream creation fails. -/
inductive StreamDest where
  | fileStream (path : String)
  | fallbackConsole
deriving DecidableEq, Repr

/-- `path.join` of a directory and a file name. -/
def joinPath (dir file : String) : String :=
  dir ++ "/" ++ file

/-- `createLogFileStream` from src/utils/file-system.ts: open the file for
appending; on failure, log and return the console fallback destination.
`createFails` is the oracle for whether stream construction throws. -/
def createLogFileStream (createFails : Bool) (logFilePath : String) : StreamDest :=
  if createFails then .fallbackConsole else .fileStream logFilePath

/-- `rotateLogFile` from src/utils/rotation.ts: end the old stream and await
its `finish`; then, inside the same `try`, run the cleanup pass (if
`cleanupOnRotation`) and the archive pass (if `archiveOnRotation`).  If
ending or awaiting the stream throws (`endThrows`), the catch logs the error
and both passes are skipped.  In every case a fresh stream for the new
date's log path is created and returned. -/
def rotateLogFile (fs : FS) (logDirectory filename currentDate : String)
    (retentionDays : JsNumber) (archiveFormat : ArchiveFormat)
    (archiveDirectory : Option String)
    (cleanupOnRotation archiveOnRotation : Bool) (now : CivilDate)
    (endThrows : Bool) (outcome : String → ArchiveOutcome)
    (createFails : Bool) : FS × StreamDest :=
  let fs1 :=
    if endThrows then fs
    else
      let fsA :=
        if cleanupOnRotation then
          cleanupOldFiles fs logDirectory filename retentionDays
            archiveDirectory now
        else fs
      if archiveOnRotation then
        archiveLogFiles fsA logDirectory filename currentDate archiveFormat
          archiveDirectory outcome
      else fsA
  let newLogFilePath := joinPath logDirectory (filename ++ "-" ++ currentDate ++ ".log")
  (fs1, createLogFileStream createFails newLogFilePath)

/-! ## The transport record loop (src/transport.ts)

The loop is embedded as a state machine over write events.  The state keeps
the date the sink last saw (`lastDate`), the date the open stream was
created for (`streamDate`), the in-memory buffer, and the ordered list of
`(file date, record)` write events that have reached a stream — which file a
record lands in is decided by the date of the stream open at the moment the
buffer holding it is flushed.  Maintenance passes (cleanup/archiving inside
`rotateLogFile`) touch only closed files and produce no record writes, so
they do not appear in `writes`. -/

/-- The transport options relevant to the record loop. -/
structure TransportConfig where
  level : LogLevel
  bufferSize : Nat
deriving DecidableEq, Repr

/-- An event consumed by the record loop: a record arriving while the host
clock shows `date`, or the deferred flush timer firing. -/
inductive TransportEvent where
  | record (date : String) (obj : PinoLogEntry)
  | timerFlush
deriving DecidableEq, Repr

/-- Runtime state of the sink. -/
structure TransportState where
  lastDate : String
  streamDate : String
  buffer : List PinoLogEntry
  writes : List (String × PinoLogEntry)
deriving DecidableEq, Repr

/-- `flushBuffer`: concatenate the buffered records into one write against
the currently open stream and empty the buffer. -/
def flushBufferT (st : TransportState) : TransportState :=
  { st with
    writes := st.writes ++ st.buffer.map (fun e => (st.streamDate, e))
    buffer := [] }

/-- One iteration of the `for await` body of src/transport.ts: level filter,
rotation check (flush against the old stream, then rotate and swap to the
new date's stream), append to the buffer, and flush when the buffer reached
`bufferSize` (otherwise the deferred flush is (re)scheduled, which does not
change the write log). -/
def processRecord (cfg : TransportConfig) (st : TransportState)
    (date : String) (obj : PinoLogEntry) : TransportState :=
  if !shouldWriteLog obj cfg.level then st
  else
    let st1 :=
      if date ≠ st.lastDate then
        let stF := flushBufferT st
        { stF with streamDate := date, lastDate := date }
      else st
    let st2 := { st1 with buffer := st1.buffer ++ [obj] }
    if cfg.bufferSize ≤ st2.buffer.length then flushBufferT st2 else st2

/-- Process one event. -/
def processEvent (cfg : TransportConfig) (st : TransportState) :
    TransportEvent → TransportState
  | .record date obj => processRecord cfg st date obj
  | .timerFlush => flushBufferT st

/-- Run the transport over an event sequence starting from a fresh sink
opened on `initDate`, ending with the final flush performed when the source
ends (and again by `close()`, a no-op on the then-empty buffer). -/
def runTransport (cfg : TransportConfig) (initDate : String)
    (events : List TransportEvent) : TransportState :=
  flushBufferT (events.foldl (processEvent cfg) ⟨initDate, initDate, [], []⟩)

/-- The records the level filter accepts, each tagged with the calendar date
the host clock showed when the record was processed, in arrival order. -/
def acceptedWrites (cfg : TransportConfig) (events : List TransportEvent) :
    List (String × PinoLogEntry) :=
  events.filterMap (fun ev =>
    match ev with
    | .record date obj =>
      if shouldWriteLog obj cfg.level then some (date, obj) else none
    | .timerFlush => none)

/-- The write events one input event is expected to contribute: an accepted
record tagged with its processing-time date, nothing otherwise. -/
def acceptedOf (cfg : TransportConfig) :
    TransportEvent → List (String × PinoLogEntry)
  | .record date obj =>
    if shouldWriteLog obj cfg.level then [(date, obj)] else []
  | .timerFlush => []

/-- Write events already performed plus the buffered records, the latter
tagged with the date of the currently active period. -/
def pendingWrites (st : TransportState) : List (String × PinoLogEntry) :=
  st.writes ++ st.buffer.map (fun e => (st.lastDate, e))

/-! ## Filename sanitization -/

/-- Path separator characters. -/
def isPathSep (c : Char) : Bool :=
  c = '/' || c = '\\'

/-- The suffix of a character list after its last path separator. -/
def lastComponent (cs : List Char) : List Char :=
  cs.foldl (fun acc c => if isPathSep c then [] else acc ++ [c]) []

/-- Modelled from the spec: the filename sanitization step of the final
`fileTransport` (src/transport.ts), whose implementation is absent from this
snapshot — only the spec (`filenameBase` is "sanitized to strip any
path-separator components", falling back "to a default base name with a
warning if sanitization yields empty/`.`/`..`") and the test
"should sanitize filename with path separators" describe it.  Strips every
path-separator component, keeping the last one, and falls back to the
default base name `log` when the result is empty, `.` or `..`. -/
def sanitizeFilename (raw : String) : String :=
  let base : String := ⟨lastComponent raw.data⟩
  if base = "" ∨ base = "." ∨ base = ".." then "log" else base

/-! ## C2 / C9: the level filter -/

/-- C2: a record carrying one of the six recognized Pino severity codes
passes `shouldWriteLog` iff its severity is at least as urgent as the
configured minimum level (ordering `fatal > error > warn > info > debug >
trace`), and a configured level of `silent` rejects every record. -/
theorem shouldWriteLog_level_filter (obj : PinoLogEntry) (s : Severity)
    (m : LogLevel) (h : obj.level = some s.pinoCode) :
    (shouldWriteLog obj m = true ↔
      (m ≠ LogLevel.silent ∧ minLevelUrgency m ≤ s.urgency))
    ∧ shouldWriteLog obj LogLevel.silent = false := by
  constructor
  · cases s <;> cases m <;>
      simp [shouldWriteLog, h, Severity.pinoCode, minLevelUrgency,
        Severity.urgency, getLevelValue]
  · simp [shouldWriteLog]

/-- Witness for C2: an `error`-severity record against minimum `warn`. -/
theorem shouldWriteLog_level_filter_witness :
    (shouldWriteLog ⟨some 50, "boom"⟩ LogLevel.warn = true ↔
      (LogLevel.warn ≠ LogLevel.silent ∧
        minLevelUrgency LogLevel.warn ≤ Severity.error.urgency))
    ∧ shouldWriteLog ⟨some 50, "boom"⟩ LogLevel.silent = false :=
  shouldWriteLog_level_filter ⟨some 50, "boom"⟩ Severity.error LogLevel.warn rfl

/-- C9: a record whose `level` field is absent, zero, or not one of the six
recognized Pino codes is treated as `info`: it passes the filter iff the
configured minimum level is `info`, `debug` or `trace`. -/
theorem shouldWriteLog_unrecognized_defaults_to_info (obj : PinoLogEntry)
    (m : LogLevel) (h : unrecognizedLevel obj.level) :
    shouldWriteLog obj m = true ↔
      (m = LogLevel.info ∨ m = LogLevel.debug ∨ m = LogLevel.trace) := by
  match ho : obj.level with
  | none =>
    cases m <;> simp [shouldWriteLog, ho, getLevelValue]
  | some v =>
    rw [ho] at h
    obtain ⟨h10, h20, h30, h40, h50, h60⟩ := h
    by_cases hv : v = 0
    · cases m <;> simp [shouldWriteLog, ho, hv, getLevelValue]
    · cases m <;>
        simp [shouldWriteLog, ho, hv, h10, h20, h30, h40, h50, h60,
          getLevelValue]

/-- Witness for C9: a record with the unrecognized numeric level 25 against
minimum `debug` is accepted (treated as `info`). -/
theorem shouldWriteLog_unrecognized_defaults_to_info_witness :
    shouldWriteLog ⟨some 25, "odd"⟩ LogLevel.debug = true ↔
      (LogLevel.debug = LogLevel.info ∨ LogLevel.debug = LogLevel.debug ∨
        LogLevel.debug = LogLevel.trace) :=
  shouldWriteLog_unrecognized_defaults_to_info ⟨some 25, "odd"⟩ LogLevel.debug
    (by simp [unrecognizedLevel])

/-! ## Helper lemmas -/

/-- A fold whose step never changes the accumulator is the identity. -/
theorem foldl_fixed_of_step_fixed {α β : Type} (f : β → α → β) (l : List α)
    (h : ∀ acc x, f acc x = acc) : ∀ init, l.foldl f init = init := by
  induction l with
  | nil => intro init; rfl
  | cons a t ih => intro init; rw [List.foldl_cons, h]; exact ih init

/-- `memFile` survives appending a fresh directory entry. -/
theorem memFile_append_entry (fs : FS) (d f : String) (entry : String × List String)
    (h : memFile fs d f = true) : memFile (fs ++ [entry]) d f = true := by
  simp only [memFile, List.any_append] at *
  simp [h]

/-- `memFile` survives `ensureLogDirectoryExists`. -/
theorem memFile_ensure (fs : FS) (d f a : String)
    (h : memFile fs d f = true) :
    memFile (ensureLogDirectoryExists fs a) d f = true := by
  unfold ensureLogDirectoryExists
  by_cases hd : dirExists fs a = true
  · simp [hd, h]
  · simp only [Bool.not_eq_true] at hd
    simp [hd]
    exact memFile_append_entry fs d f (a, []) h

/-- `createFile` never removes a file: `memFile` is monotone under it. -/
theorem memFile_createFile (fs : FS) (d f a g : String)
    (h : memFile fs d f = true) :
    memFile (createFile fs a g) d f = true := by
  induction fs with
  | nil => simp [memFile] at h
  | cons e t ih =>
    simp only [memFile, createFile, List.map_cons, List.any_cons] at h ⊢
    rcases Bool.or_eq_true_iff.mp h with he | ht
    · refine Bool.or_eq_true_iff.mpr (Or.inl ?_)
      by_cases hda : e.1 = a
      · rw [if_pos hda]
        simp only [Bool.and_eq_true, decide_eq_true_eq] at he ⊢
        refine ⟨he.1, ?_⟩
        by_cases hg : g ∈ e.2
        · simp [hg, he.2]
        · simp [hg, List.mem_append, he.2]
      · simp only [if_neg hda]
        exact he
    · exact Bool.or_eq_true_iff.mpr (Or.inr (ih ht))

/-- `removeFile` of a different file name keeps `memFile`. -/
theorem memFile_removeFile_other (fs : FS) (d f a g : String)
    (hne : f ≠ g) (h : memFile fs d f = true) :
    memFile (removeFile fs a g) d f = true := by
  induction fs with
  | nil => simp [memFile] at h
  | cons e t ih =>
    simp only [memFile, removeFile, List.map_cons, List.any_cons] at h ⊢
    rcases Bool.or_eq_true_iff.mp h with he | ht
    · refine Bool.or_eq_true_iff.mpr (Or.inl ?_)
      by_cases hda : e.1 = a
      · rw [if_pos hda]
        simp only [Bool.and_eq_true, decide_eq_true_eq] at he ⊢
        exact ⟨he.1, List.mem_filter.mpr ⟨he.2, by simp [hne]⟩⟩
      · simp only [if_neg hda]
        exact he
    · exact Bool.or_eq_true_iff.mpr (Or.inr (ih ht))

/-! ## C5: invalid `retentionDays` makes the retention pass a no-op -/

/-- C5: when `retentionDays` is negative or not a finite number,
`cleanupOldFiles` changes nothing: both the log directory and the archive
directory keep every file. -/
theorem cleanupOldFiles_invalid_retention_noop (fs : FS)
    (logDirectory filename : String) (retentionDays : JsNumber)
    (archiveDirectory : Option String) (now : CivilDate)
    (h : retentionDays.isFinite = false ∨ retentionDays.ltZero = true) :
    cleanupOldFiles fs logDirectory filename retentionDays archiveDirectory now
      = fs := by
  unfold cleanupOldFiles
  rcases h with h | h <;> simp [h]

/-- Witness for C5: `NaN` retention leaves an ancient file alone. -/
theorem cleanupOldFiles_invalid_retention_noop_witness :
    (JsNumber.nan.isFinite = false ∨ JsNumber.nan.ltZero = true) ∧
    cleanupOldFiles [("logs", ["app-2000-01-01.log"])] "logs" "app"
      JsNumber.nan (Option.some "arch") ⟨2025, 10, 11⟩
      = [("logs", ["app-2000-01-01.log"])] :=
  ⟨Or.inl rfl,
    cleanupOldFiles_invalid_retention_noop _ _ _ _ _ _ (Or.inl rfl)⟩

/-! ## C3: `archiveFormat = 'none'` -/

/-- Counterexample to C3: with `archiveFormat = 'none'`, the archive pass
run at `close()` does **not** delete the non-current file
`app-2025-01-01.log`; it is still present afterwards (the claim says it
"no longer exists"). -/
theorem archiveFormat_none_keeps_old_file_counterexample :
    memFile [("logs", ["app-2025-01-01.log"])] "logs" "app-2025-01-01.log"
        = true ∧
    archiveLogFiles [("logs", ["app-2025-01-01.log"])] "logs" "app"
        "2025-01-02" ArchiveFormat.none Option.none
        (fun _ => ArchiveOutcome.ok)
      = [("logs", ["app-2025-01-01.log"])] := by
  constructor
  · decide
  · rfl

/-- C3 (amended): with `archiveFormat = 'none'`, the archive pass is a
complete no-op — every file (current or not) is kept, and no container of
any kind is produced. -/
theorem archiveLogFiles_none_noop (fs : FS)
    (logDirectory filename currentDate : String)
    (archiveDirectory : Option String) (outcome : String → ArchiveOutcome) :
    archiveLogFiles fs logDirectory filename currentDate ArchiveFormat.none
      archiveDirectory outcome = fs := by
  unfold archiveLogFiles
  by_cases hd : dirExists fs logDirectory = true
  · simp only [hd, Bool.not_true, Bool.false_eq_true, if_false]
    exact foldl_fixed_of_step_fixed _ _ (fun acc x => by
      simp [archiveSingleLogFile]) fs
  · simp only [Bool.not_eq_true] at hd
    simp [hd]

/-! ## C4: archive-then-delete atomicity -/

/-- C4: `archiveSingleLogFile` deletes the source log file only after the
container was confirmed fully written: if any failure event fired before
confirmation (archive error, output error, non-ENOENT warning), the source
file is left intact. -/
theorem archiveSingleLogFile_error_keeps_source (fs : FS)
    (logDirectory logFile : String) (archiveFormat : ArchiveFormat)
    (archiveDirectory : Option String) (outcome : ArchiveOutcome)
    (hconf : containerConfirmed outcome = false)
    (hmem : memFile fs logDirectory logFile = true) :
    memFile
      (archiveSingleLogFile fs logDirectory logFile archiveFormat
        archiveDirectory outcome) logDirectory logFile = true := by
  unfold archiveSingleLogFile
  by_cases hfmt : archiveFormat = ArchiveFormat.none
  · simp [hfmt, hmem]
  · simp only [hfmt, if_false, hconf, Bool.false_eq_true]
    exact memFile_createFile _ _ _ _ _ (memFile_ensure _ _ _ _ hmem)

/-- Witness for C4: an archiver `error` event leaves the source file in
place. -/
theorem archiveSingleLogFile_error_keeps_source_witness :
    containerConfirmed ArchiveOutcome.archiveErr = false ∧
    memFile [("logs", ["a-2025-01-01.log"])] "logs" "a-2025-01-01.log" = true ∧
    memFile
      (archiveSingleLogFile [("logs", ["a-2025-01-01.log"])] "logs"
        "a-2025-01-01.log" ArchiveFormat.zip Option.none
        ArchiveOutcome.archiveErr) "logs" "a-2025-01-01.log" = true :=
  ⟨rfl, by decide,
    archiveSingleLogFile_error_keeps_source _ _ _ _ _ _ rfl (by decide)⟩

/-! ## C10: rotation always yields a destination for the new date -/

/-- C10: `rotateLogFile` always returns the stream built for the new date's
log path (real file stream, or the console fallback when creation fails),
and when ending/awaiting the old stream throws, both maintenance passes are
skipped and the file system is untouched. -/
theorem rotateLogFile_end_error_resilient (fs : FS)
    (logDirectory filename currentDate : String) (retentionDays : JsNumber)
    (archiveFormat : ArchiveFormat) (archiveDirectory : Option String)
    (cleanupOnRotation archiveOnRotation : Bool) (now : CivilDate)
    (endThrows : Bool) (outcome : String → ArchiveOutcome)
    (createFails : Bool) :
    (rotateLogFile fs logDirectory filename currentDate retentionDays
        archiveFormat archiveDirectory cleanupOnRotation archiveOnRotation
        now endThrows outcome createFails).2
      = createLogFileStream createFails
          (joinPath logDirectory (filename ++ "-" ++ currentDate ++ ".log"))
    ∧ (endThrows = true →
        (rotateLogFile fs logDirectory filename currentDate retentionDays
            archiveFormat archiveDirectory cleanupOnRotation archiveOnRotation
            now endThrows outcome createFails).1 = fs) := by
  constructor
  · rfl
  · intro h
    simp [rotateLogFile, h]

/-- Witness for C10: a throwing `stream.end()` skips cleanup/archiving but
still hands back the new date's stream. -/
theorem rotateLogFile_end_error_resilient_witness :
    (rotateLogFile [("logs", ["app-2025-01-01.log"])] "logs" "app"
        "2025-01-02" (JsNumber.num 7) ArchiveFormat.zip Option.none true true
        ⟨2025, 1, 2⟩ true (fun _ => ArchiveOutcome.ok) false).2
      = createLogFileStream false
          (joinPath "logs" ("app" ++ "-" ++ "2025-01-02" ++ ".log"))
    ∧ (rotateLogFile [("logs", ["app-2025-01-01.log"])] "logs" "app"
        "2025-01-02" (JsNumber.num 7) ArchiveFormat.zip Option.none true true
        ⟨2025, 1, 2⟩ true (fun _ => ArchiveOutcome.ok) false).1
      = [("logs", ["app-2025-01-01.log"])] :=
  ⟨(rotateLogFile_end_error_resilient _ _ _ _ _ _ _ _ _ _ _ _ _).1,
    (rotateLogFile_end_error_resilient _ _ _ _ _ _ _ _ _ _ _ _ _).2 rfl⟩

/-! ## C8: filename sanitization -/

/-- The folding step of `lastComponent` preserves separator-freeness. -/
theorem lastComponent_no_sep (cs : List Char) :
    ∀ acc, acc.all (fun c => !isPathSep c) = true →
      (cs.foldl (fun acc c => if isPathSep c then [] else acc ++ [c])
          acc).all (fun c => !isPathSep c) = true := by
  induction cs with
  | nil => intro acc h; exact h
  | cons c t ih =>
    intro acc h
    rw [List.foldl_cons]
    by_cases hc : isPathSep c = true
    · rw [if_pos hc]
      exact ih [] (by simp)
    · rw [if_neg hc]
      simp only [Bool.not_eq_true] at hc
      refine ih (acc ++ [c]) ?_
      simp [List.all_append, h, hc]

/-- C8: the sanitized base filename contains no path separator and is never
empty, `.` or `..` — a caller-supplied `filename` cannot make the built
log path escape the configured log directory. -/
theorem sanitizeFilename_safe (raw : String) :
    (sanitizeFilename raw).data.all (fun c => !isPathSep c) = true ∧
    sanitizeFilename raw ≠ "" ∧ sanitizeFilename raw ≠ "." ∧
    sanitizeFilename raw ≠ ".." := by
  unfold sanitizeFilename
  by_cases h : (⟨lastComponent raw.data⟩ : String) = "" ∨
      (⟨lastComponent raw.data⟩ : String) = "." ∨
      (⟨lastComponent raw.data⟩ : String) = ".."
  · simp only [h, if_pos]
    refine ⟨by decide, by decide, by decide, by decide⟩
  · simp only [h, if_neg, not_false_eq_true]
    push_neg at h
    exact ⟨lastComponent_no_sep raw.data [] rfl, h.1, h.2.1, h.2.2⟩

/-! ## C6: which files the maintenance passes may touch -/

/-- Counterexample to C6: `app.log` (base `app`, no date suffix) does not
match the dated naming pattern, yet the archive pass archives and removes
it — its filter only checks the `app` prefix and the `.log` suffix. -/
theorem nonmatching_file_archived_counterexample :
    extractDateFromFilename "app.log" = Option.none ∧
    memFile [("logs", ["app.log"])] "logs" "app.log" = true ∧
    memFile
      (archiveLogFiles [("logs", ["app.log"])] "logs" "app" "2025-10-11"
        ArchiveFormat.zip Option.none (fun _ => ArchiveOutcome.ok))
      "logs" "app.log" = false := by
  refine ⟨rfl, by decide, by decide⟩

/-- C6 (amended): the cleanup pass never deletes a file whose name does not
match the dated pattern (`extractDateFromFilename` fails), and the archive
pass never deletes a file that does not both start with the base filename
and end in `.log`; however a base-prefixed `.log` file without a date
suffix is **not** protected from the archive pass (see the counterexample). -/
theorem maintenance_touch_policy :
    (∀ (fs : FS) (dir filename dirB file : String) (cutoffDate : Int),
      extractDateFromFilename file = Option.none →
      memFile fs dirB file = true →
      memFile (processDirectoryFiles fs dir filename cutoffDate) dirB file
        = true)
    ∧ (∀ (fs : FS) (logDirectory filename currentDate dirB file : String)
        (archiveFormat : ArchiveFormat) (archiveDirectory : Option String)
        (outcome : String → ArchiveOutcome),
      (jsStartsWith file filename && jsEndsWith file ".log") = false →
      memFile fs dirB file = true →
      memFile
        (archiveLogFiles fs logDirectory filename currentDate archiveFormat
          archiveDirectory outcome) dirB file = true) := by
  constructor
  · intro fs dir filename dirB file cutoffDate hext hmem
    induction fs with
    | nil => simp [memFile] at hmem
    | cons e t ih =>
      obtain ⟨n, l⟩ := e
      simp only [memFile, processDirectoryFiles, List.map_cons,
        List.any_cons, procEntry] at hmem ⊢
      rcases Bool.or_eq_true_iff.mp hmem with he | ht
      · refine Bool.or_eq_true_iff.mpr (Or.inl ?_)
        by_cases hda : n = dir
        · rw [if_pos hda]
          simp only [Bool.and_eq_true, decide_eq_true_eq] at he ⊢
          refine ⟨he.1, List.mem_filter.mpr ⟨he.2, ?_⟩⟩
          simp [shouldDeleteFile, hext]
        · rw [if_neg hda]
          exact he
      · exact Bool.or_eq_true_iff.mpr (Or.inr (ih ht))
  · intro fs logDirectory filename currentDate dirB file archiveFormat
      archiveDirectory outcome hpred hmem
    unfold archiveLogFiles
    by_cases hd : dirExists fs logDirectory = true
    · simp only [hd, Bool.not_true, Bool.false_eq_true, if_false]
      have key :
          ∀ (L : List String) (acc : FS),
            (∀ x ∈ L,
              (jsStartsWith x filename && jsEndsWith x ".log") = true) →
            memFile acc dirB file = true →
            memFile
              (L.foldl
                (fun acc logFile =>
                  archiveSingleLogFile acc logDirectory logFile archiveFormat
                    archiveDirectory (outcome logFile)) acc) dirB file
              = true := by
        intro L
        induction L with
        | nil => intro acc _ hm; exact hm
        | cons x xs ih =>
          intro acc hall hm
          rw [List.foldl_cons]
          refine ih _ (fun y hy => hall y (List.mem_cons_of_mem x hy)) ?_
          have hxne : file ≠ x := by
            intro hEq
            rw [hEq] at hpred
            rw [hall x (List.mem_cons_self x xs)] at hpred
            simp at hpred
          unfold archiveSingleLogFile
          by_cases hfmt : archiveFormat = ArchiveFormat.none
          · simp [hfmt, hm]
          · simp only [hfmt, if_false]
            by_cases hconf : containerConfirmed (outcome x) = true
            · simp only [hconf, if_pos]
              exact memFile_removeFile_other _ _ _ _ _ hxne
                (memFile_createFile _ _ _ _ _ (memFile_ensure _ _ _ _ hm))
            · simp only [Bool.not_eq_true] at hconf
              simp only [hconf, Bool.false_eq_true, if_false]
              exact memFile_createFile _ _ _ _ _ (memFile_ensure _ _ _ _ hm)
      refine key _ fs (fun x hx => ?_) hmem
      have := List.of_mem_filter hx
      simp only [Bool.and_eq_true] at this ⊢
      exact ⟨this.1.1, this.1.2⟩
    · simp only [Bool.not_eq_true] at hd
      simp [hd, hmem]

/-- Witness for C6 (amended): a dateless `app.log` survives the cleanup
pass, and `data.txt` survives the archive pass. -/
theorem maintenance_touch_policy_witness :
    memFile
      (processDirectoryFiles [("logs", ["app.log"])] "logs" "app" 20000)
      "logs" "app.log" = true ∧
    memFile
      (archiveLogFiles [("logs", ["data.txt", "app-2020-01-01.log"])] "logs"
        "app" "2025-10-11" ArchiveFormat.zip Option.none
        (fun _ => ArchiveOutcome.ok)) "logs" "data.txt" = true :=
  ⟨maintenance_touch_policy.1 _ _ _ _ _ _ rfl (by decide),
    maintenance_touch_policy.2 _ _ _ _ _ _ _ _ _ (by decide) (by decide)⟩

/-! ## C7: retention idempotence -/

/-- Filtering twice with the same predicate filters once. -/
theorem filter_self_idem {α : Type} (p : α → Bool) (l : List α) :
    (l.filter p).filter p = l.filter p := by
  induction l with
  | nil => rfl
  | cons a t ih =>
    by_cases hp : p a = true <;> simp [hp, ih]

/-- Filters with different predicates commute. -/
theorem filter_comm_pred {α : Type} (p q : α → Bool) (l : List α) :
    (l.filter p).filter q = (l.filter q).filter p := by
  induction l with
  | nil => rfl
  | cons a t ih =>
    by_cases hp : p a = true <;> by_cases hq : q a = true <;>
      simp [hp, hq, ih]

/-- `processDirectoryFiles` does not change which directories exist. -/
theorem dirExists_processDirectoryFiles (fs : FS) (d f : String) (c : Int)
    (a : String) :
    dirExists (processDirectoryFiles fs d f c) a = dirExists fs a := by
  induction fs with
  | nil => rfl
  | cons e t ih =>
    obtain ⟨n, l⟩ := e
    simp only [dirExists, processDirectoryFiles, List.map_cons, List.any_cons,
      procEntry] at ih ⊢
    by_cases hda : n = d <;> simp [hda, ih]

/-- One cleanup step on a single directory entry is idempotent. -/
theorem procEntry_idem (d f : String) (c : Int) (e : String × List String) :
    procEntry d f c (procEntry d f c e) = procEntry d f c e := by
  obtain ⟨n, l⟩ := e
  by_cases hda : n = d <;> simp [procEntry, hda, filter_self_idem]

/-- Cleanup steps on single directory entries commute. -/
theorem procEntry_comm (d1 f1 : String) (c1 : Int) (d2 f2 : String)
    (c2 : Int) (e : String × List String) :
    procEntry d2 f2 c2 (procEntry d1 f1 c1 e)
      = procEntry d1 f1 c1 (procEntry d2 f2 c2 e) := by
  obtain ⟨n, l⟩ := e
  by_cases h1 : n = d1 <;> by_cases h2 : n = d2
  · subst h1
    subst h2
    simp [procEntry, filter_comm_pred _ _ l]
  · subst h1
    simp [procEntry, h2]
  · subst h2
    simp [procEntry, h1]
  · simp [procEntry, h1, h2]

/-- `processDirectoryFiles` is idempotent. -/
theorem processDirectoryFiles_idem (fs : FS) (d f : String) (c : Int) :
    processDirectoryFiles (processDirectoryFiles fs d f c) d f c
      = processDirectoryFiles fs d f c := by
  induction fs with
  | nil => rfl
  | cons e t ih =>
    simp only [processDirectoryFiles, List.map_cons] at ih ⊢
    rw [procEntry_idem]
    exact congrArg _ ih

/-- `processDirectoryFiles` calls on (possibly different) directories
commute. -/
theorem processDirectoryFiles_comm (fs : FS) (d1 f1 : String) (c1 : Int)
    (d2 f2 : String) (c2 : Int) :
    processDirectoryFiles (processDirectoryFiles fs d1 f1 c1) d2 f2 c2
      = processDirectoryFiles (processDirectoryFiles fs d2 f2 c2) d1 f1 c1 := by
  induction fs with
  | nil => rfl
  | cons e t ih =>
    simp only [processDirectoryFiles, List.map_cons] at ih ⊢
    rw [procEntry_comm]
    exact congrArg _ ih

/-- The post-guard body of the cleanup pass is idempotent. -/
theorem cleanupPass_idem (fs : FS) (logDirectory filename : String)
    (cutoffDate : Int) (archiveDirectory : Option String) :
    cleanupPass (cleanupPass fs logDirectory filename cutoffDate
        archiveDirectory) logDirectory filename cutoffDate archiveDirectory
      = cleanupPass fs logDirectory filename cutoffDate archiveDirectory := by
  unfold cleanupPass
  cases archiveDirectory with
  | none => exact processDirectoryFiles_idem _ _ _ _
  | some ad =>
    by_cases hcond : ad ≠ "" ∧ ad ≠ logDirectory
    · simp only [if_pos hcond]
      by_cases hex :
          dirExists (processDirectoryFiles fs logDirectory filename
            cutoffDate) ad = true
      · simp only [if_pos hex]
        have hex2 :
            dirExists
              (processDirectoryFiles
                (processDirectoryFiles
                  (processDirectoryFiles fs logDirectory filename cutoffDate)
                  ad filename cutoffDate) logDirectory filename cutoffDate)
              ad = true := by
          rw [dirExists_processDirectoryFiles, dirExists_processDirectoryFiles]
          exact hex
        rw [if_pos hex2]
        rw [processDirectoryFiles_comm _ ad filename cutoffDate logDirectory
          filename cutoffDate, processDirectoryFiles_idem,
          processDirectoryFiles_idem]
      · rw [if_neg hex, processDirectoryFiles_idem]
        rw [if_neg hex]
    · simp only [if_neg hcond]
      exact processDirectoryFiles_idem _ _ _ _

/-- C7: the cleanup pass is idempotent — running `cleanupOldFiles` twice
with the same base filename, retention window and clock leaves the same
file set as running it once. -/
theorem cleanupOldFiles_idempotent (fs : FS) (logDirectory filename : String)
    (retentionDays : JsNumber) (archiveDirectory : Option String)
    (now : CivilDate) :
    cleanupOldFiles
        (cleanupOldFiles fs logDirectory filename retentionDays
          archiveDirectory now) logDirectory filename retentionDays
        archiveDirectory now
      = cleanupOldFiles fs logDirectory filename retentionDays
          archiveDirectory now := by
  unfold cleanupOldFiles
  cases retentionDays with
  | nan => simp [JsNumber.isFinite]
  | posInf => simp [JsNumber.isFinite]
  | negInf => simp [JsNumber.isFinite]
  | num q =>
    by_cases hq : q < 0
    · simp [JsNumber.isFinite, JsNumber.ltZero, hq]
    · have hguard :
          (!(JsNumber.num q).isFinite || (JsNumber.num q).ltZero) = false := by
        simp [JsNumber.isFinite, JsNumber.ltZero, hq]
      rw [hguard]
      simp only [Bool.false_eq_true, if_false]
      exact cleanupPass_idem _ _ _ _ _

/-! ## C1: rotation correctness of the record loop -/

/-- `acceptedWrites` unfolds one event at a time. -/
theorem acceptedWrites_cons (cfg : TransportConfig) (ev : TransportEvent)
    (evs : List TransportEvent) :
    acceptedWrites cfg (ev :: evs)
      = acceptedOf cfg ev ++ acceptedWrites cfg evs := by
  cases ev with
  | record d o =>
    by_cases h : shouldWriteLog o cfg.level = true <;>
      simp [acceptedWrites, acceptedOf, h]
  | timerFlush => simp [acceptedWrites, acceptedOf]

/-- Single-step invariant of the record loop: the open stream always
belongs to the active date, and each event extends the pending writes by
exactly its accepted record tagged with its processing date. -/
theorem processEvent_invariant (cfg : TransportConfig) (st : TransportState)
    (ev : TransportEvent) (h : st.streamDate = st.lastDate) :
    (processEvent cfg st ev).streamDate = (processEvent cfg st ev).lastDate ∧
    pendingWrites (processEvent cfg st ev)
      = pendingWrites st ++ acceptedOf cfg ev := by
  cases ev with
  | timerFlush =>
    refine ⟨by simp [processEvent, flushBufferT, h], ?_⟩
    simp [processEvent, flushBufferT, pendingWrites, acceptedOf, h]
  | record d o =>
    by_cases hw : shouldWriteLog o cfg.level = true
    · by_cases hd : d = st.lastDate
      · by_cases hsz : cfg.bufferSize ≤ st.buffer.length + 1
        · refine ⟨?_, ?_⟩ <;>
            simp [processEvent, processRecord, hw, hd, hsz, flushBufferT,
              pendingWrites, acceptedOf, h]
        · refine ⟨?_, ?_⟩ <;>
            simp [processEvent, processRecord, hw, hd, hsz, flushBufferT,
              pendingWrites, acceptedOf, h]
      · by_cases hsz : cfg.bufferSize ≤ 1
        · refine ⟨?_, ?_⟩ <;>
            simp [processEvent, processRecord, hw, hd, hsz, flushBufferT,
              pendingWrites, acceptedOf, h]
        · refine ⟨?_, ?_⟩ <;>
            simp [processEvent, processRecord, hw, hd, hsz, flushBufferT,
              pendingWrites, acceptedOf, h]
    · simp only [Bool.not_eq_true] at hw
      refine ⟨?_, ?_⟩ <;>
        simp [processEvent, processRecord, hw, pendingWrites, acceptedOf, h]

/-- Folding the record loop over an event sequence preserves the invariant
and accumulates exactly the accepted writes. -/
theorem foldl_processEvent_pending (cfg : TransportConfig)
    (events : List TransportEvent) :
    ∀ st : TransportState, st.streamDate = st.lastDate →
      (events.foldl (processEvent cfg) st).streamDate
          = (events.foldl (processEvent cfg) st).lastDate ∧
      pendingWrites (events.foldl (processEvent cfg) st)
        = pendingWrites st ++ acceptedWrites cfg events := by
  induction events with
  | nil =>
    intro st h
    exact ⟨h, by simp [acceptedWrites]⟩
  | cons ev evs ih =>
    intro st h
    rw [List.foldl_cons]
    obtain ⟨h1, h2⟩ := processEvent_invariant cfg st ev h
    obtain ⟨h3, h4⟩ := ih (processEvent cfg st ev) h1
    refine ⟨h3, ?_⟩
    rw [h4, h2, acceptedWrites_cons, List.append_assoc]

/-- C1: rotation correctness — running the transport over any event
sequence writes exactly the records accepted by the level filter, in
acceptance order, each to the file named for the calendar date current when
it was processed: records accepted before a date change go only to the old
date's file (the rotation flushes the buffer against the old stream before
swapping), records accepted after it go only to the new date's file, and no
accepted record is lost. -/
theorem runTransport_rotation_correct (cfg : TransportConfig)
    (initDate : String) (events : List TransportEvent) :
    (runTransport cfg initDate events).writes = acceptedWrites cfg events := by
  unfold runTransport
  obtain ⟨h1, h2⟩ :=
    foldl_processEvent_pending cfg events ⟨initDate, initDate, [], []⟩ rfl
  calc (flushBufferT (events.foldl (processEvent cfg)
          ⟨initDate, initDate, [], []⟩)).writes
      = pendingWrites (events.foldl (processEvent cfg)
          ⟨initDate, initDate, [], []⟩) := by
        simp [flushBufferT, pendingWrites, h1]
    _ = pendingWrites (⟨initDate, initDate, [], []⟩ : TransportState)
          ++ acceptedWrites cfg events := h2
    _ = acceptedWrites cfg events := by simp [pendingWrites]

end PinoTransport
